import Mathlib

/-!
Verification of the mock object-store and analytics ledger (`StorageService`
in `src/lib/types.ts`) of the screen-recording repository.

The backing store (browser `localStorage`) is a string-keyed map with a
total-size quota: `setItem` either commits the new value or throws
`QuotaExceededError` leaving the stored value unchanged, and `removeItem`
never throws.  We embed the three key groups the service uses
(`screen_recorder_videos`, `video_blob_<id>`, `screen_recorder_analytics`)
as three typed collections inside a `Store`, together with a capacity
budget `cap`.  Each `setItem` is modelled as a checked write that succeeds
exactly when the updated store fits in `cap`; the size measure approximates
the JSON-encoded length of each value (string fields by their length,
fixed overhead per record and per completion point).  JSON round-tripping
is the identity in the model; ISO-8601 timestamps are modelled by their
epoch-milliseconds value (the code only ever compares them through
`new Date(x).getTime()`); JavaScript numbers are modelled as exact
rationals.  `generateId`'s output is passed in as a parameter, with
freshness as a hypothesis where a claim needs it.
-/

namespace ScreenRec

/-- `VideoMetadata` from `src/lib/types.ts`. -/
structure VideoMetadata where
  id : String
  title : String
  filename : String
  duration : ℚ
  size : ℕ
  createdAt : ℤ
  shareUrl : String
  thumbnailUrl : Option String := none
deriving DecidableEq, Repr

/-- `CompletionDataPoint` from `src/lib/types.ts`. -/
structure CompletionDataPoint where
  timestamp : ℤ
  watchPercentage : ℚ
  watchDuration : ℚ
deriving DecidableEq, Repr

/-- `VideoAnalytics` from `src/lib/types.ts`. -/
structure VideoAnalytics where
  videoId : String
  views : ℕ
  completionData : List CompletionDataPoint
  averageWatchPercentage : ℚ
  lastViewed : Option ℤ := none
deriving DecidableEq, Repr

/-- The `Omit<VideoMetadata, 'id' | 'shareUrl'>` argument of `uploadVideo`. -/
structure MetaInput where
  title : String
  filename : String
  duration : ℚ
  size : ℕ
  createdAt : ℤ
  thumbnailUrl : Option String := none
deriving DecidableEq, Repr

/-- Association-list lookup: first entry whose key matches, as a JS object
or `localStorage.getItem` lookup. -/
def alistGet {α : Type} (k : String) : List (String × α) → Option α
  | [] => none
  | (k', v) :: rest => if k' = k then some v else alistGet k rest

/-- Association-list update: replace the entry in place if the key exists,
append otherwise (JS object assignment `obj[k] = v`). -/
def alistSet {α : Type} (k : String) (v : α) : List (String × α) → List (String × α)
  | [] => [(k, v)]
  | (k', v') :: rest => if k' = k then (k, v) :: rest else (k', v') :: alistSet k v rest

/-- Association-list removal (JS `delete obj[k]`, `localStorage.removeItem`). -/
def alistRemove {α : Type} (k : String) (l : List (String × α)) : List (String × α) :=
  l.filter (fun p => p.1 != k)

/-- The persisted state: the three key groups the service owns, plus the
quota capacity of the backing store. -/
structure Store where
  videos : List VideoMetadata
  blobs : List (String × String)
  analytics : List (String × VideoAnalytics)
  cap : ℕ
deriving DecidableEq, Repr

/-- Approximate JSON-encoded length of one `VideoMetadata` record:
string fields by length plus a fixed overhead for keys and numbers. -/
def metaSize (m : VideoMetadata) : ℕ :=
  m.id.length + m.title.length + m.filename.length + m.shareUrl.length +
    (match m.thumbnailUrl with | some t => t.length | none => 0) + 24

/-- Size of the `screen_recorder_videos` value. -/
def videosSize (l : List VideoMetadata) : ℕ := (l.map metaSize).sum

/-- Size of all `video_blob_<id>` entries (key plus base64 value). -/
def blobsSize (l : List (String × String)) : ℕ :=
  (l.map (fun p => p.1.length + p.2.length)).sum

/-- Approximate JSON-encoded length of one `VideoAnalytics` record. -/
def anSize (a : VideoAnalytics) : ℕ :=
  a.videoId.length + 16 * a.completionData.length +
    (match a.lastViewed with | some _ => 8 | none => 0) + 24

/-- Size of the `screen_recorder_analytics` value. -/
def analyticsSize (l : List (String × VideoAnalytics)) : ℕ :=
  (l.map (fun p => p.1.length + anSize p.2)).sum

/-- Total bytes the store occupies in the backing key-value namespace. -/
def storeSize (s : Store) : ℕ :=
  videosSize s.videos + blobsSize s.blobs + analyticsSize s.analytics

/-- Errors surfaced by the service: the raw `QuotaExceededError` a
`localStorage.setItem` throws, and the explicit
`Error('Storage quota exceeded. Please delete some videos manually.')`
`uploadVideo` throws after a failed retry. -/
inductive StorageErr where
  | quotaExceeded
  | capacityExceeded
deriving DecidableEq, Repr

instance exceptDecEq {ε α : Type} [DecidableEq ε] [DecidableEq α] :
    DecidableEq (Except ε α) := fun a b =>
  match a, b with
  | Except.ok x, Except.ok y =>
    if h : x = y then Decidable.isTrue (by rw [h])
    else Decidable.isFalse (by intro hc; injection hc; contradiction)
  | Except.error x, Except.error y =>
    if h : x = y then Decidable.isTrue (by rw [h])
    else Decidable.isFalse (by intro hc; injection hc; contradiction)
  | Except.ok _, Except.error _ =>
    Decidable.isFalse (fun hc => Except.noConfusion hc)
  | Except.error _, Except.ok _ =>
    Decidable.isFalse (fun hc => Except.noConfusion hc)

/-- Result of an operation: the outcome and the state it leaves behind
(on an error, all writes made before the throw persist). -/
abbrev R (α : Type) := Except StorageErr α × Store

/-- `localStorage.setItem(STORAGE_KEY_VIDEOS, JSON.stringify(vs))`:
commits when the updated store fits the quota, otherwise throws and
leaves the stored value unchanged. -/
def setVideos (vs : List VideoMetadata) (s : Store) : R Unit :=
  let s' := { s with videos := vs }
  if storeSize s' ≤ s.cap then (Except.ok (), s')
  else (Except.error StorageErr.quotaExceeded, s)

/-- `localStorage.setItem('video_blob_' + id, base64)` under the quota. -/
def setBlobItem (id b64 : String) (s : Store) : R Unit :=
  let s' := { s with blobs := alistSet id b64 s.blobs }
  if storeSize s' ≤ s.cap then (Except.ok (), s')
  else (Except.error StorageErr.quotaExceeded, s)

/-- `localStorage.removeItem('video_blob_' + id)`: never throws. -/
def removeBlobItem (id : String) (s : Store) : Store :=
  { s with blobs := alistRemove id s.blobs }

/-- `localStorage.setItem(STORAGE_KEY_ANALYTICS, JSON.stringify(m))` under
the quota. -/
def setAnalyticsMap (m : List (String × VideoAnalytics)) (s : Store) : R Unit :=
  let s' := { s with analytics := m }
  if storeSize s' ≤ s.cap then (Except.ok (), s')
  else (Except.error StorageErr.quotaExceeded, s)

/-- `StorageService.getVideos`. -/
def getVideos (s : Store) : List VideoMetadata := s.videos

/-- `StorageService.getVideo`: first list entry with the given id. -/
def getVideo (id : String) (s : Store) : Option VideoMetadata :=
  s.videos.find? (fun v => v.id == id)

/-- `StorageService.getVideoBlob`. -/
def getVideoBlob (id : String) (s : Store) : Option String :=
  alistGet id s.blobs

/-- `StorageService.getAllAnalytics`. -/
def getAllAnalytics (s : Store) : List (String × VideoAnalytics) := s.analytics

/-- `StorageService.getAnalytics`. -/
def getAnalytics (videoId : String) (s : Store) : Option VideoAnalytics :=
  alistGet videoId s.analytics

/-- `StorageService.initializeAnalytics`: store a zero-initialized record. -/
def initializeAnalytics (videoId : String) (s : Store) : R Unit :=
  setAnalyticsMap
    (alistSet videoId
      { videoId := videoId, views := 0, completionData := [],
        averageWatchPercentage := 0 } s.analytics) s

/-- `StorageService.deleteAnalytics`. -/
def deleteAnalytics (videoId : String) (s : Store) : R Unit :=
  setAnalyticsMap (alistRemove videoId s.analytics) s

/-- `StorageService.deleteVideo`: filter the list, rewrite it, remove the
blob, delete the analytics entry.  A throw aborts the remaining steps. -/
def deleteVideo (id : String) (s : Store) : R Unit :=
  match setVideos (s.videos.filter (fun v => v.id != id)) s with
  | (Except.error e, s1) => (Except.error e, s1)
  | (Except.ok _, s1) => deleteAnalytics id (removeBlobItem id s1)

/-- `StorageService.incrementView`: bump `views`, stamp `lastViewed`;
silently does nothing when the id has no analytics record. -/
def incrementView (videoId : String) (now : ℤ) (s : Store) : R Unit :=
  match alistGet videoId s.analytics with
  | none => (Except.ok (), s)
  | some a =>
    setAnalyticsMap
      (alistSet videoId
        { a with views := a.views + 1, lastViewed := some now } s.analytics) s

/-- `StorageService.recordCompletion`: append a data point, then recompute
`averageWatchPercentage` as `reduce (+watchPercentage) / length` over the
data including the new point; silently does nothing when the id has no
analytics record. -/
def recordCompletion (videoId : String) (watchPercentage watchDuration : ℚ)
    (now : ℤ) (s : Store) : R Unit :=
  match alistGet videoId s.analytics with
  | none => (Except.ok (), s)
  | some a =>
    let newData := a.completionData ++
      [{ timestamp := now, watchPercentage := watchPercentage,
         watchDuration := watchDuration }]
    let total : ℚ := (newData.map CompletionDataPoint.watchPercentage).sum
    setAnalyticsMap
      (alistSet videoId
        { a with completionData := newData,
                 averageWatchPercentage := total / (newData.length : ℚ) }
        s.analytics) s

/-- One step of the stable descending-by-`createdAt` sort
(`videos.sort((a, b) => dateB - dateA)`; ES2019 `sort` is stable). -/
def insertByCreatedAtDesc (m : VideoMetadata) :
    List VideoMetadata → List VideoMetadata
  | [] => [m]
  | x :: xs =>
    if m.createdAt < x.createdAt then x :: insertByCreatedAtDesc m xs
    else m :: x :: xs

/-- Stable sort of the video list, newest `createdAt` first. -/
def sortByCreatedAtDesc (l : List VideoMetadata) : List VideoMetadata :=
  l.foldr insertByCreatedAtDesc []

/-- The `videosToDelete.forEach(...)` loop of `cleanupOldVideos`: for each
evicted record remove its blob and delete its analytics entry.  A throw
aborts the rest of the loop. -/
def deleteEvicted : List VideoMetadata → Store → R Unit
  | [], s => (Except.ok (), s)
  | v :: vs, s =>
    match deleteAnalytics v.id (removeBlobItem v.id s) with
    | (Except.error e, s1) => (Except.error e, s1)
    | (Except.ok _, s1) => deleteEvicted vs s1

/-- `StorageService.cleanupOldVideos`: no-op when at most `keepCount`
records are stored; otherwise sort newest-first, delete blob and analytics
of everything past the first `keepCount`, and rewrite the video list to
the kept prefix. -/
def cleanupOldVideos (keepCount : ℕ) (s : Store) : R Unit :=
  if s.videos.length ≤ keepCount then (Except.ok (), s)
  else
    let sorted := sortByCreatedAtDesc s.videos
    match deleteEvicted (sorted.drop keepCount) s with
    | (Except.error e, s1) => (Except.error e, s1)
    | (Except.ok _, s1) => setVideos (sorted.take keepCount) s1

/-- The `VideoMetadata` value `uploadVideo` builds from the generated id
and the caller's metadata (`shareUrl` derived from the id). -/
def mkVideoData (id : String) (md : MetaInput) : VideoMetadata :=
  { id := id, title := md.title, filename := md.filename,
    duration := md.duration, size := md.size, createdAt := md.createdAt,
    shareUrl := "/watch/" ++ id, thumbnailUrl := md.thumbnailUrl }

/-- The write sequence of `uploadVideo`'s `try` block, identical in the
initial attempt and the post-cleanup retry: append the record to the
re-read video list, write the list, write the blob, initialize analytics.
A throw aborts the remaining steps but keeps the completed ones. -/
def attemptWrite (videoData : VideoMetadata) (base64 : String) (s : Store) :
    R Unit :=
  match setVideos (s.videos ++ [videoData]) s with
  | (Except.error e, s1) => (Except.error e, s1)
  | (Except.ok _, s1) =>
    match setBlobItem videoData.id base64 s1 with
    | (Except.error e, s2) => (Except.error e, s2)
    | (Except.ok _, s2) => initializeAnalytics videoData.id s2

/-- `StorageService.uploadVideo`: one write attempt; on a quota error,
`cleanupOldVideos(3)` then exactly one retry, whose failure becomes the
`CapacityExceeded` error; any other error propagates unchanged. -/
def uploadVideo (id : String) (base64 : String) (md : MetaInput) (s : Store) :
    Except StorageErr VideoMetadata × Store :=
  let videoData := mkVideoData id md
  match attemptWrite videoData base64 s with
  | (Except.ok _, s1) => (Except.ok videoData, s1)
  | (Except.error StorageErr.quotaExceeded, s1) =>
    match cleanupOldVideos 3 s1 with
    | (Except.error e, s2) => (Except.error e, s2)
    | (Except.ok _, s2) =>
      match attemptWrite videoData base64 s2 with
      | (Except.ok _, s3) => (Except.ok videoData, s3)
      | (Except.error _, s3) => (Except.error StorageErr.capacityExceeded, s3)
  | (Except.error e, s1) => (Except.error e, s1)

/-- The zero-initialized analytics record `initializeAnalytics` writes. -/
def zeroAnalytics (videoId : String) : VideoAnalytics :=
  { videoId := videoId, views := 0, completionData := [],
    averageWatchPercentage := 0 }

/-- The analytics record after one view increment (`views += 1`,
`lastViewed = now`). -/
def bumpView (a : VideoAnalytics) (now : ℤ) : VideoAnalytics :=
  { a with views := a.views + 1, lastViewed := some now }

/-- The analytics record after one completion append: the new point is
stored exactly as passed and the average is recomputed over all points
including it. -/
def appendCompletion (a : VideoAnalytics) (p d : ℚ) (now : ℤ) : VideoAnalytics :=
  let newData := a.completionData ++ [CompletionDataPoint.mk now p d]
  { a with completionData := newData,
           averageWatchPercentage :=
             (newData.map CompletionDataPoint.watchPercentage).sum /
               ((newData.length : ℕ) : ℚ) }

/-- A sequence of `recordView` calls (the spec name for `incrementView`)
at the given timestamps; the flag records whether every call succeeded. -/
def runViews (videoId : String) (ts : List ℤ) (s : Store) : Bool × Store :=
  match ts with
  | [] => (true, s)
  | t :: rest =>
    match incrementView videoId t s with
    | (Except.ok _, s1) => runViews videoId rest s1
    | (Except.error _, s1) => (false, s1)

/-- A sequence of `recordCompletion` calls, each given as
(watchPercentage, watchDuration, timestamp); the flag records whether
every call succeeded. -/
def runCompletions (videoId : String) (ps : List (ℚ × ℚ × ℤ)) (s : Store) :
    Bool × Store :=
  match ps with
  | [] => (true, s)
  | q :: rest =>
    match recordCompletion videoId q.1 q.2.1 q.2.2 s with
    | (Except.ok _, s1) => runCompletions videoId rest s1
    | (Except.error _, s1) => (false, s1)

/-- A ten-character base64 payload used in the concrete scenarios. -/
def blob10 : String := "xxxxxxxxxx"

/-- Minimal metadata with a given creation timestamp. -/
def mdAt (t : ℤ) : MetaInput :=
  { title := "", filename := "", duration := 0, size := 0, createdAt := t }

/-- A small store holding one fully-populated video, used as a concrete
instantiation point. -/
def demoStore : Store :=
  { videos := [mkVideoData "a" (mdAt 1)], blobs := [("a", blob10)],
    analytics := [("a", zeroAnalytics "a")], cap := 200 }

/-- A two-record store used to instantiate the isolation claim. -/
def demoStore2 : Store :=
  { videos := [mkVideoData "a" (mdAt 1), mkVideoData "b" (mdAt 2)],
    blobs := [("a", blob10), ("b", blob10)],
    analytics := [("a", zeroAnalytics "a"), ("b", zeroAnalytics "b")],
    cap := 400 }

/-- An empty store whose capacity (40) admits the metadata list write of
one record (size 33) but not the following blob write. -/
def tinyStore : Store :=
  { videos := [], blobs := [], analytics := [], cap := 40 }

/-- An empty store whose capacity (10) rejects even a one-record metadata
list write. -/
def store10 : Store :=
  { videos := [], blobs := [], analytics := [], cap := 10 }

/-- An empty store whose capacity (300) holds four full records
(4 × 70 = 280) but rejects a fifth metadata list write (313). -/
def c2Store : Store :=
  { videos := [], blobs := [], analytics := [], cap := 300 }

/-- States after each of five sequential uploads into `c2Store` with
strictly increasing `createdAt`. -/
def c2s1 : Store := (uploadVideo "a" blob10 (mdAt 1) c2Store).2

/-- State after the second upload of the five-upload scenario. -/
def c2s2 : Store := (uploadVideo "b" blob10 (mdAt 2) c2s1).2

/-- State after the third upload of the five-upload scenario. -/
def c2s3 : Store := (uploadVideo "c" blob10 (mdAt 3) c2s2).2

/-- State after the fourth upload of the five-upload scenario. -/
def c2s4 : Store := (uploadVideo "d" blob10 (mdAt 4) c2s3).2

/-- State after the fifth upload of the five-upload scenario (the only
capacity-pressured call: its first attempt fails, eviction keeps the 3
newest of the 4 stored records, the retry succeeds). -/
def c2s5 : Store := (uploadVideo "e" blob10 (mdAt 5) c2s4).2

/-! ### Association-list lemmas -/

theorem alistGet_set_self {α : Type} (k : String) (v : α) (l : List (String × α)) :
    alistGet k (alistSet k v l) = some v := by
  induction l with
  | nil => simp [alistGet, alistSet]
  | cons hd tl ih =>
    by_cases h : hd.1 = k
    · simp [alistSet, alistGet, h]
    · simp [alistSet, alistGet, h, ih]

theorem alistGet_set_ne {α : Type} {k' k : String} (h : k' ≠ k) (v : α)
    (l : List (String × α)) : alistGet k' (alistSet k v l) = alistGet k' l := by
  have hne : k ≠ k' := Ne.symm h
  induction l with
  | nil => simp [alistGet, alistSet, hne]
  | cons hd tl ih =>
    by_cases hk : hd.1 = k
    · simp [alistSet, alistGet, hk, hne]
    · simp only [alistSet, hk, if_false]
      by_cases hk' : hd.1 = k'
      · simp [alistGet, hk']
      · simp [alistGet, hk', ih]

theorem alistGet_remove_self {α : Type} (k : String) (l : List (String × α)) :
    alistGet k (alistRemove k l) = none := by
  induction l with
  | nil => rfl
  | cons hd tl ih =>
    by_cases h : hd.1 = k
    · simpa [alistRemove, List.filter_cons, h] using ih
    · have hb : (hd.1 != k) = true := bne_iff_ne.mpr h
      simpa [alistRemove, List.filter_cons, hb, alistGet, h] using ih

theorem alistGet_remove_ne {α : Type} {k' k : String} (h : k' ≠ k)
    (l : List (String × α)) : alistGet k' (alistRemove k l) = alistGet k' l := by
  induction l with
  | nil => rfl
  | cons hd tl ih =>
    by_cases hk : hd.1 = k
    · simpa [alistRemove, List.filter_cons, hk, alistGet, bne_iff_ne,
        Ne.symm h] using ih
    · by_cases hk' : hd.1 = k'
      · simp [alistRemove, List.filter_cons, alistGet, hk', bne_iff_ne, h]
      · simpa [alistRemove, List.filter_cons, alistGet, hk', bne_iff_ne,
          hk] using ih

theorem alistRemove_of_none {α : Type} {k : String} {l : List (String × α)}
    (h : alistGet k l = none) : alistRemove k l = l := by
  induction l with
  | nil => rfl
  | cons hd tl ih =>
    by_cases hk : hd.1 = k
    · simp [alistGet, hk] at h
    · have hb : (hd.1 != k) = true := bne_iff_ne.mpr hk
      simp only [alistGet, hk, if_false] at h
      simp [alistRemove, List.filter_cons, hb] at ih ⊢
      exact ih h

theorem alistGet_remove_none {α : Type} {k' : String} (k : String)
    {l : List (String × α)} (h : alistGet k' l = none) :
    alistGet k' (alistRemove k l) = none := by
  by_cases e : k' = k
  · subst e; exact alistGet_remove_self k' l
  · rw [alistGet_remove_ne e]; exact h

/-! ### Size lemmas: removing or filtering entries never grows the store -/

theorem sum_map_filter_le {α : Type} (f : α → ℕ) (p : α → Bool) (l : List α) :
    ((l.filter p).map f).sum ≤ (l.map f).sum := by
  induction l with
  | nil => simp
  | cons hd tl ih =>
    by_cases h : p hd
    · simpa [List.filter_cons, h] using Nat.add_le_add_left ih (f hd)
    · simp only [List.filter_cons, h, if_false, List.map, List.sum_cons]
      exact ih.trans (Nat.le_add_left _ _)

theorem videosSize_filter_le (p : VideoMetadata → Bool) (l : List VideoMetadata) :
    videosSize (l.filter p) ≤ videosSize l :=
  sum_map_filter_le metaSize p l

theorem blobsSize_remove_le (k : String) (l : List (String × String)) :
    blobsSize (alistRemove k l) ≤ blobsSize l :=
  sum_map_filter_le _ _ l

theorem analyticsSize_remove_le (k : String) (l : List (String × VideoAnalytics)) :
    analyticsSize (alistRemove k l) ≤ analyticsSize l :=
  sum_map_filter_le _ _ l

theorem insertByCreatedAtDesc_perm (m : VideoMetadata) (l : List VideoMetadata) :
    List.Perm (insertByCreatedAtDesc m l) (m :: l) := by
  induction l with
  | nil => exact List.Perm.refl _
  | cons hd tl ih =>
    by_cases h : m.createdAt < hd.createdAt
    · simp only [insertByCreatedAtDesc, h, if_true]
      exact (List.Perm.cons hd ih).trans (List.Perm.swap m hd tl)
    · simp only [insertByCreatedAtDesc, h, if_false]
      exact List.Perm.refl _

theorem sortByCreatedAtDesc_perm (l : List VideoMetadata) :
    List.Perm (sortByCreatedAtDesc l) l := by
  induction l with
  | nil => exact List.Perm.refl _
  | cons hd tl ih =>
    exact (insertByCreatedAtDesc_perm hd (sortByCreatedAtDesc tl)).trans
      (List.Perm.cons hd ih)

theorem mem_sortByCreatedAtDesc {v : VideoMetadata} {l : List VideoMetadata} :
    v ∈ sortByCreatedAtDesc l ↔ v ∈ l :=
  (sortByCreatedAtDesc_perm l).mem_iff

theorem videosSize_sort (l : List VideoMetadata) :
    videosSize (sortByCreatedAtDesc l) = videosSize l :=
  ((sortByCreatedAtDesc_perm l).map metaSize).sum_eq

theorem videosSize_take_le (k : ℕ) (l : List VideoMetadata) :
    videosSize (l.take k) ≤ videosSize l :=
  List.Sublist.sum_le_sum ((List.take_sublist k l).map metaSize)
    (fun _ _ => Nat.zero_le _)

theorem storeSize_analytics_remove_le (k : String) (s : Store) :
    storeSize { s with analytics := alistRemove k s.analytics } ≤ storeSize s := by
  unfold storeSize
  exact Nat.add_le_add_left (analyticsSize_remove_le k s.analytics) _

theorem storeSize_removeBlobItem_le (k : String) (s : Store) :
    storeSize (removeBlobItem k s) ≤ storeSize s := by
  unfold storeSize removeBlobItem
  exact Nat.add_le_add_right
    (Nat.add_le_add_left (blobsSize_remove_le k s.blobs) _) _

theorem deleteAnalytics_ok (k : String) (s : Store)
    (h : storeSize { s with analytics := alistRemove k s.analytics } ≤ s.cap) :
    deleteAnalytics k s =
      (Except.ok (), { s with analytics := alistRemove k s.analytics }) := by
  simp [deleteAnalytics, setAnalyticsMap, h]

/-- Running the eviction loop from a state within quota always succeeds
(all its writes shrink the store), keeps the video list and capacity,
only ever removes blob and analytics entries, and removes them for every
evicted record. -/
theorem deleteEvicted_spec (vs : List VideoMetadata) (s : Store)
    (h : storeSize s ≤ s.cap) :
    ∃ s', deleteEvicted vs s = (Except.ok (), s') ∧
      s'.videos = s.videos ∧ s'.cap = s.cap ∧ storeSize s' ≤ s.cap ∧
      (∀ kk, alistGet kk s.blobs = none → alistGet kk s'.blobs = none) ∧
      (∀ kk, alistGet kk s.analytics = none → alistGet kk s'.analytics = none) ∧
      (∀ v ∈ vs, alistGet v.id s'.blobs = none ∧
        alistGet v.id s'.analytics = none) := by
  induction vs generalizing s with
  | nil =>
    exact ⟨s, rfl, rfl, rfl, h, fun _ hk => hk, fun _ hk => hk, by simp⟩
  | cons v vs ih =>
    set t := removeBlobItem v.id s with ht
    have htcap : t.cap = s.cap := rfl
    have htsize : storeSize t ≤ s.cap :=
      le_trans (storeSize_removeBlobItem_le v.id s) h
    set t' : Store := { t with analytics := alistRemove v.id t.analytics }
      with ht'
    have ht'size : storeSize t' ≤ s.cap :=
      le_trans (storeSize_analytics_remove_le v.id t) htsize
    have hda : deleteAnalytics v.id t = (Except.ok (), t') :=
      deleteAnalytics_ok v.id t ht'size
    obtain ⟨s', h1, h2, h3, h4, h5, h6, h7⟩ := ih t' ht'size
    refine ⟨s', ?_, ?_, ?_, ?_, ?_, ?_, ?_⟩
    · simp only [deleteEvicted, hda]; exact h1
    · exact h2
    · exact h3
    · exact h4
    · intro kk hk
      exact h5 kk (alistGet_remove_none v.id hk)
    · intro kk hk
      exact h6 kk (alistGet_remove_none v.id hk)
    · intro x hx
      rcases List.mem_cons.mp hx with hx | hx
      · subst hx
        refine ⟨h5 x.id (alistGet_remove_self x.id s.blobs), ?_⟩
        exact h6 x.id (alistGet_remove_self x.id t.analytics)
      · exact h7 x hx

/-- `cleanupOldVideos` from a state within quota: succeeds, and either
does nothing (at most `keepCount` records) or leaves exactly the first
`keepCount` of the createdAt-descending sort as the video list, with the
blob and analytics entries of everything past that prefix removed.  It
never adds entries anywhere. -/
theorem cleanupOldVideos_spec (k : ℕ) (s : Store) (h : storeSize s ≤ s.cap) :
    ∃ s', cleanupOldVideos k s = (Except.ok (), s') ∧
      s'.cap = s.cap ∧ storeSize s' ≤ s.cap ∧
      (s.videos.length ≤ k → s' = s) ∧
      (k < s.videos.length →
        s'.videos = (sortByCreatedAtDesc s.videos).take k ∧
        ∀ v ∈ (sortByCreatedAtDesc s.videos).drop k,
          getVideoBlob v.id s' = none ∧ getAnalytics v.id s' = none) ∧
      (∀ kk, getVideoBlob kk s = none → getVideoBlob kk s' = none) ∧
      (∀ kk, getAnalytics kk s = none → getAnalytics kk s' = none) ∧
      (∀ v ∈ s'.videos, v ∈ s.videos) := by
  by_cases hlen : s.videos.length ≤ k
  · refine ⟨s, ?_, rfl, h, fun _ => rfl, fun hk => absurd hlen (not_le.mpr hk),
      fun _ hk => hk, fun _ hk => hk, fun _ hv => hv⟩
    simp [cleanupOldVideos, hlen]
  · obtain ⟨s1, h1, h2, h3, h4, h5, h6, h7⟩ :=
      deleteEvicted_spec ((sortByCreatedAtDesc s.videos).drop k) s h
    have hfit : storeSize
        { s1 with videos := (sortByCreatedAtDesc s.videos).take k } ≤ s1.cap := by
      have hv : videosSize ((sortByCreatedAtDesc s.videos).take k) ≤
          videosSize s.videos :=
        le_trans (videosSize_take_le k _) (le_of_eq (videosSize_sort s.videos))
      have hs1 : storeSize s1 = videosSize s.videos + blobsSize s1.blobs +
          analyticsSize s1.analytics := by
        unfold storeSize; rw [h2]
      have he : storeSize { s1 with videos := (sortByCreatedAtDesc s.videos).take k } =
          videosSize ((sortByCreatedAtDesc s.videos).take k) +
          blobsSize s1.blobs + analyticsSize s1.analytics := rfl
      rw [he, h3]
      omega
    set s' : Store := { s1 with videos := (sortByCreatedAtDesc s.videos).take k }
      with hs'
    refine ⟨s', ?_, h3, ?_, fun hk => absurd hk hlen, ?_, ?_, ?_, ?_⟩
    · simp only [cleanupOldVideos, hlen, if_false, h1, setVideos]
      simp [hfit]
    · calc storeSize s' ≤ s1.cap := hfit
        _ = s.cap := h3
    · intro _
      refine ⟨rfl, ?_⟩
      intro v hv
      have := h7 v hv
      exact ⟨this.1, this.2⟩
    · intro kk hk
      exact h5 kk hk
    · intro kk hk
      exact h6 kk hk
    · intro v hv
      have : v ∈ sortByCreatedAtDesc s.videos := List.mem_of_mem_take hv
      exact mem_sortByCreatedAtDesc.mp this

theorem setVideos_ok_inv {vs : List VideoMetadata} {s s' : Store}
    {u : Unit} (h : setVideos vs s = (Except.ok u, s')) :
    s' = { s with videos := vs } := by
  simp only [setVideos] at h
  split_ifs at h <;> simp_all

theorem setVideos_err_inv {vs : List VideoMetadata} {s s' : Store}
    {e : StorageErr} (h : setVideos vs s = (Except.error e, s')) :
    e = StorageErr.quotaExceeded ∧ s' = s ∧
      s.cap < storeSize { s with videos := vs } := by
  simp only [setVideos] at h
  split_ifs at h with hc <;> simp_all

theorem setBlobItem_ok_inv {id b : String} {s s' : Store}
    {u : Unit} (h : setBlobItem id b s = (Except.ok u, s')) :
    s' = { s with blobs := alistSet id b s.blobs } := by
  simp only [setBlobItem] at h
  split_ifs at h <;> simp_all

theorem setBlobItem_err_inv {id b : String} {s s' : Store}
    {e : StorageErr} (h : setBlobItem id b s = (Except.error e, s')) :
    e = StorageErr.quotaExceeded ∧ s' = s := by
  simp only [setBlobItem] at h
  split_ifs at h <;> simp_all

theorem setAnalyticsMap_ok_inv {m : List (String × VideoAnalytics)} {s s' : Store}
    {u : Unit} (h : setAnalyticsMap m s = (Except.ok u, s')) :
    s' = { s with analytics := m } := by
  simp only [setAnalyticsMap] at h
  split_ifs at h <;> simp_all

theorem setAnalyticsMap_err_inv {m : List (String × VideoAnalytics)} {s s' : Store}
    {e : StorageErr} (h : setAnalyticsMap m s = (Except.error e, s')) :
    e = StorageErr.quotaExceeded ∧ s' = s := by
  simp only [setAnalyticsMap] at h
  split_ifs at h <;> simp_all

/-- A successful write attempt commits exactly the three entries: the
record appended to the list, the blob, and the zero-initialized
analytics. -/
theorem attemptWrite_ok {v : VideoMetadata} {b : String} {s s' : Store}
    {u : Unit} (h : attemptWrite v b s = (Except.ok u, s')) :
    s' = { s with videos := s.videos ++ [v],
                  blobs := alistSet v.id b s.blobs,
                  analytics := alistSet v.id (zeroAnalytics v.id) s.analytics } := by
  simp only [attemptWrite] at h
  split at h
  case _ e s1 heq => simp at h
  case _ u1 s1 heq =>
    have h1 := setVideos_ok_inv heq
    split at h
    case _ e s2 heq2 => simp at h
    case _ u2 s2 heq2 =>
      have h2 := setBlobItem_ok_inv heq2
      simp only [initializeAnalytics] at h
      have h3 := setAnalyticsMap_ok_inv h
      subst h1 h2 h3
      rfl

/-- A failed write attempt fails with the raw quota error, keeps the
capacity, and every record in the resulting list is either an old record
or the new one. -/
theorem attemptWrite_err {v : VideoMetadata} {b : String} {s s' : Store}
    {e : StorageErr} (h : attemptWrite v b s = (Except.error e, s')) :
    e = StorageErr.quotaExceeded ∧ s'.cap = s.cap ∧
      (∀ x ∈ s'.videos, x ∈ s.videos ∨ x = v) := by
  simp only [attemptWrite] at h
  split at h
  case _ e1 s1 heq =>
    obtain ⟨he, hs, _⟩ := setVideos_err_inv heq
    simp only [Prod.mk.injEq, Except.error.injEq] at h
    obtain ⟨h1, h2⟩ := h
    subst h1 h2 hs he
    exact ⟨rfl, rfl, fun x hx => Or.inl hx⟩
  case _ u1 s1 heq =>
    have h1 := setVideos_ok_inv heq
    split at h
    case _ e2 s2 heq2 =>
      obtain ⟨he, hs⟩ := setBlobItem_err_inv heq2
      simp only [Prod.mk.injEq, Except.error.injEq] at h
      obtain ⟨h2, h3⟩ := h
      subst h2 h3 hs he h1
      refine ⟨rfl, rfl, fun x hx => ?_⟩
      simpa using List.mem_append.mp hx
    case _ u2 s2 heq2 =>
      have h2 := setBlobItem_ok_inv heq2
      simp only [initializeAnalytics] at h
      obtain ⟨he, hs⟩ := setAnalyticsMap_err_inv h
      subst hs h2 h1
      refine ⟨he, rfl, fun x hx => ?_⟩
      simpa using List.mem_append.mp hx

/-- Case analysis of `uploadVideo`: success comes either from the first
attempt or from the single post-cleanup retry. -/
theorem uploadVideo_ok {id b : String} {md : MetaInput} {s s' : Store}
    {r : VideoMetadata} (h : uploadVideo id b md s = (Except.ok r, s')) :
    r = mkVideoData id md ∧
      ((∃ u, attemptWrite (mkVideoData id md) b s = (Except.ok u, s')) ∨
       ∃ s1 s2 u2 u3,
         attemptWrite (mkVideoData id md) b s =
           (Except.error StorageErr.quotaExceeded, s1) ∧
         cleanupOldVideos 3 s1 = (Except.ok u2, s2) ∧
         attemptWrite (mkVideoData id md) b s2 = (Except.ok u3, s')) := by
  simp only [uploadVideo] at h
  split at h
  case _ u1 s1 heq =>
    simp only [Prod.mk.injEq, Except.ok.injEq] at h
    exact ⟨h.1.symm, Or.inl ⟨u1, by rw [heq, h.2]⟩⟩
  case _ s1 heq =>
    split at h
    case _ e2 s2 heq2 => simp at h
    case _ u2 s2 heq2 =>
      split at h
      case _ u3 s3 heq3 =>
        simp only [Prod.mk.injEq, Except.ok.injEq] at h
        exact ⟨h.1.symm, Or.inr ⟨s1, s2, u2, u3, heq, heq2, by rw [heq3, h.2]⟩⟩
      case _ e3 s3 heq3 => simp at h
  case _ e1 s1 hne heq => simp at h

theorem setVideos_pos {vs : List VideoMetadata} {s : Store}
    (h : storeSize { s with videos := vs } ≤ s.cap) :
    setVideos vs s = (Except.ok (), { s with videos := vs }) := by
  simp [setVideos, h]

theorem incrementView_some {videoId : String} {now : ℤ} {s : Store}
    {a : VideoAnalytics} (ha : alistGet videoId s.analytics = some a) :
    incrementView videoId now s =
      setAnalyticsMap (alistSet videoId (bumpView a now) s.analytics) s := by
  simp [incrementView, bumpView, ha]

theorem recordCompletion_some {videoId : String} {p d : ℚ} {now : ℤ}
    {s : Store} {a : VideoAnalytics}
    (ha : alistGet videoId s.analytics = some a) :
    recordCompletion videoId p d now s =
      setAnalyticsMap (alistSet videoId (appendCompletion a p d now) s.analytics)
        s := by
  simp [recordCompletion, appendCompletion, ha]

theorem find?_id_filter_ne (id : String) (l : List VideoMetadata) :
    (l.filter (fun v => v.id != id)).find? (fun v => v.id == id) = none := by
  refine List.find?_eq_none.mpr (fun x hx => ?_)
  have hne := (List.mem_filter.mp hx).2
  simp only [bne_iff_ne, ne_eq] at hne
  simpa using hne

theorem find?_filter_other {id1 id2 : String} (h : id2 ≠ id1)
    (l : List VideoMetadata) :
    (l.filter (fun v => v.id != id1)).find? (fun v => v.id == id2) =
      l.find? (fun v => v.id == id2) := by
  induction l with
  | nil => rfl
  | cons hd tl ih =>
    by_cases h1 : hd.id = id1
    · have hb : (hd.id != id1) = false := by simp [h1]
      have h2 : (hd.id == id2) = false := by
        simp only [beq_eq_false_iff_ne, ne_eq, h1]
        exact fun e => h e.symm
      simp [List.filter_cons, List.find?_cons, hb, h2, ih]
    · have hb : (hd.id != id1) = true := bne_iff_ne.mpr h1
      by_cases h2 : hd.id = id2
      · have hf : (hd.id == id2) = true := beq_iff_eq.mpr h2
        simp [List.filter_cons, List.find?_cons, hb, hf]
      · have hf : (hd.id == id2) = false := by
          simp only [beq_eq_false_iff_ne, ne_eq]; exact h2
        simp [List.filter_cons, List.find?_cons, hb, hf, ih]

/-- Claim C4 (deletion is total): from any in-quota state, `deleteVideo(id)`
succeeds, and afterwards `getVideo(id)`, `getBlob(id)` and `getAnalytics(id)`
all return not-found: the record, its blob and its analytics entry are
removed together. -/
theorem deleteVideo_total (id : String) (s : Store)
    (hwf : storeSize s ≤ s.cap) :
    (deleteVideo id s).1 = Except.ok () ∧
    getVideo id (deleteVideo id s).2 = none ∧
    getVideoBlob id (deleteVideo id s).2 = none ∧
    getAnalytics id (deleteVideo id s).2 = none := by
  have h1 : storeSize { s with videos := s.videos.filter (fun v => v.id != id) } ≤
      s.cap := by
    refine le_trans ?_ hwf
    unfold storeSize
    exact Nat.add_le_add_right
      (Nat.add_le_add_right (videosSize_filter_le _ _) _) _
  set s1 : Store := { s with videos := s.videos.filter (fun v => v.id != id) }
    with hs1
  set s2 : Store := removeBlobItem id s1 with hs2
  have h2 : storeSize { s2 with analytics := alistRemove id s2.analytics } ≤
      s2.cap := by
    have := le_trans (storeSize_analytics_remove_le id s2)
      (le_trans (storeSize_removeBlobItem_le id s1) h1)
    exact this
  have hrun : deleteVideo id s =
      (Except.ok (), { s2 with analytics := alistRemove id s2.analytics }) := by
    simp only [deleteVideo, setVideos_pos h1]
    exact deleteAnalytics_ok id s2 h2
  rw [hrun]
  refine ⟨rfl, ?_, ?_, ?_⟩
  · exact find?_id_filter_ne id s.videos
  · exact alistGet_remove_self id s.blobs
  · exact alistGet_remove_self id s.analytics

/-- Witness for C4 at a concrete one-record store. -/
theorem deleteVideo_total_witness :
    (deleteVideo "a" demoStore).1 = Except.ok () ∧
    getVideo "a" (deleteVideo "a" demoStore).2 = none ∧
    getVideoBlob "a" (deleteVideo "a" demoStore).2 = none ∧
    getAnalytics "a" (deleteVideo "a" demoStore).2 = none :=
  deleteVideo_total "a" demoStore (by decide)

/-- Claim C7 (absent-target mutations are silent no-ops): on an id with no
stored record, blob or analytics entry, `deleteVideo`, `recordView`
(`incrementView`) and `recordCompletion` raise no error and return the
store observably unchanged — in fact literally unchanged. -/
theorem absent_target_noop (id : String) (now : ℤ) (p d : ℚ) (s : Store)
    (hwf : storeSize s ≤ s.cap)
    (hv : getVideo id s = none) (hb : getVideoBlob id s = none)
    (ha : getAnalytics id s = none) :
    deleteVideo id s = (Except.ok (), s) ∧
    incrementView id now s = (Except.ok (), s) ∧
    recordCompletion id p d now s = (Except.ok (), s) := by
  have ha' : alistGet id s.analytics = none := ha
  have hb' : alistGet id s.blobs = none := hb
  refine ⟨?_, ?_, ?_⟩
  · have hfilter : s.videos.filter (fun v => v.id != id) = s.videos := by
      refine List.filter_eq_self.mpr (fun v hv' => ?_)
      have := List.find?_eq_none.mp hv v hv'
      simpa [bne_iff_ne] using this
    have hstep1 : deleteVideo id s = deleteAnalytics id (removeBlobItem id s) := by
      simp only [deleteVideo, hfilter, @setVideos_pos s.videos s hwf]
    have hrbs : removeBlobItem id s = s := by
      show ({ s with blobs := alistRemove id s.blobs } : Store) = s
      rw [alistRemove_of_none hb']
    have h2 : storeSize { s with analytics := alistRemove id s.analytics } ≤
        s.cap := by
      rw [alistRemove_of_none ha']; exact hwf
    have hda := deleteAnalytics_ok id s h2
    rw [alistRemove_of_none ha'] at hda
    rw [hstep1, hrbs, hda]
  · simp [incrementView, ha']
  · simp [recordCompletion, ha']

/-- Witness for C7: an id absent from the demo store, with out-of-range
completion arguments. -/
theorem absent_target_noop_witness :
    deleteVideo "zzz" demoStore = (Except.ok (), demoStore) ∧
    incrementView "zzz" 7 demoStore = (Except.ok (), demoStore) ∧
    recordCompletion "zzz" 150 (-5) 7 demoStore = (Except.ok (), demoStore) :=
  absent_target_noop "zzz" 7 150 (-5) demoStore (by decide) (by decide)
    (by decide) (by decide)

/-- Claim C9 (zero-initialized analytics at creation): every successful
`createVideo` leaves a fresh zero-initialized analytics record for the
returned id: 0 views, empty completion data, 0 average, no last-view. -/
theorem upload_zero_analytics {id b : String} {md : MetaInput} {s s' : Store}
    {r : VideoMetadata} (h : uploadVideo id b md s = (Except.ok r, s')) :
    r.id = id ∧
    getAnalytics r.id s' =
      some { videoId := r.id, views := 0, completionData := [],
             averageWatchPercentage := 0, lastViewed := none } := by
  obtain ⟨hr, hcase⟩ := uploadVideo_ok h
  subst hr
  refine ⟨rfl, ?_⟩
  rcases hcase with ⟨u, hA⟩ | ⟨s1, s2, u2, u3, hA, hC, hB⟩
  · rw [attemptWrite_ok hA]
    exact alistGet_set_self _ _ _
  · rw [attemptWrite_ok hB]
    exact alistGet_set_self _ _ _

/-- Witness for C9: a successful upload into the demo store. -/
theorem upload_zero_analytics_witness :
    (mkVideoData "b" (mdAt 2)).id = "b" ∧
    getAnalytics (mkVideoData "b" (mdAt 2)).id
        (uploadVideo "b" blob10 (mdAt 2) demoStore).2 =
      some { videoId := (mkVideoData "b" (mdAt 2)).id, views := 0,
             completionData := [], averageWatchPercentage := 0,
             lastViewed := none } :=
  @upload_zero_analytics "b" blob10 (mdAt 2) demoStore
    (uploadVideo "b" blob10 (mdAt 2) demoStore).2 (mkVideoData "b" (mdAt 2))
    (by rfl)

/-- All-successful `recordView` sequences add exactly their length to
`views`. -/
theorem runViews_spec (videoId : String) (ts : List ℤ) :
    ∀ (s : Store) (a : VideoAnalytics),
      alistGet videoId s.analytics = some a →
      (runViews videoId ts s).1 = true →
      ∃ a', alistGet videoId ((runViews videoId ts s).2).analytics = some a' ∧
        a'.views = a.views + ts.length := by
  induction ts with
  | nil =>
    intro s a ha _
    exact ⟨a, ha, by simp⟩
  | cons t rest ih =>
    intro s a ha hok
    have hIV := @incrementView_some videoId t s a ha
    by_cases hc : storeSize
        { s with analytics := alistSet videoId (bumpView a t) s.analytics } ≤
          s.cap
    · have hstep : incrementView videoId t s =
          (Except.ok (),
            { s with analytics := alistSet videoId (bumpView a t) s.analytics }) := by
        rw [hIV]; simp [setAnalyticsMap, hc]
      have hrw : runViews videoId (t :: rest) s =
          runViews videoId rest
            { s with analytics := alistSet videoId (bumpView a t) s.analytics } := by
        simp only [runViews, hstep]
      rw [hrw] at hok ⊢
      obtain ⟨a', h1, h2⟩ := ih _ _ (alistGet_set_self videoId _ s.analytics) hok
      refine ⟨a', h1, ?_⟩
      rw [h2]
      simp only [bumpView, List.length_cons]
      omega
    · have hstep : incrementView videoId t s =
          (Except.error StorageErr.quotaExceeded, s) := by
        rw [hIV]; simp [setAnalyticsMap, hc]
      simp only [runViews, hstep] at hok
      exact absurd hok (by simp)

/-- Claim C5 (view-count exactness and monotonicity): on an id with an
analytics record, a successful `recordView` bumps `views` by exactly one
and stamps `lastViewed`; any single call leaves `views` no smaller; an
all-successful sequence of `n` calls adds exactly `n`. -/
theorem recordView_exact (videoId : String) (now : ℤ) (s : Store)
    (a : VideoAnalytics) (ha : getAnalytics videoId s = some a) :
    (∀ s', incrementView videoId now s = (Except.ok (), s') →
       getAnalytics videoId s' =
         some { a with views := a.views + 1, lastViewed := some now }) ∧
    (∀ r s' a', incrementView videoId now s = (r, s') →
       getAnalytics videoId s' = some a' → a.views ≤ a'.views) ∧
    (∀ ts : List ℤ, (runViews videoId ts s).1 = true →
       ∃ a', getAnalytics videoId (runViews videoId ts s).2 = some a' ∧
         a'.views = a.views + ts.length) := by
  have ha' : alistGet videoId s.analytics = some a := ha
  have hIV := @incrementView_some videoId now s a ha'
  refine ⟨?_, ?_, ?_⟩
  · intro s' hs'
    rw [hIV] at hs'
    rw [setAnalyticsMap_ok_inv hs']
    show alistGet videoId (alistSet videoId (bumpView a now) s.analytics) =
      some { a with views := a.views + 1, lastViewed := some now }
    rw [alistGet_set_self]
    rfl
  · intro r s' a' hr hga
    rw [hIV] at hr
    cases r with
    | ok u =>
      rw [setAnalyticsMap_ok_inv hr] at hga
      simp only [getAnalytics] at hga
      rw [alistGet_set_self] at hga
      cases hga
      exact Nat.le_succ _
    | error e =>
      obtain ⟨_, hs⟩ := setAnalyticsMap_err_inv hr
      subst hs
      rw [ha] at hga
      cases hga
      exact le_refl _
  · intro ts hok
    exact runViews_spec videoId ts s a ha' hok

/-- Witness for C5: one `recordView` on the demo store's zero record. -/
theorem recordView_exact_witness :
    getAnalytics "a" (incrementView "a" 5 demoStore).2 =
      some { zeroAnalytics "a" with views := 1, lastViewed := some 5 } :=
  (recordView_exact "a" 5 demoStore (zeroAnalytics "a") (by decide)).1
    (incrementView "a" 5 demoStore).2 (by rfl)

/-- All-successful `recordCompletion` sequences append exactly the passed
points, and the stored average is the mean over all stored points. -/
theorem runCompletions_spec (videoId : String) (ps : List (ℚ × ℚ × ℤ)) :
    ∀ (s : Store) (a : VideoAnalytics),
      alistGet videoId s.analytics = some a →
      (runCompletions videoId ps s).1 = true →
      ∃ a', alistGet videoId ((runCompletions videoId ps s).2).analytics =
          some a' ∧
        a'.completionData = a.completionData ++
          ps.map (fun q => CompletionDataPoint.mk q.2.2 q.1 q.2.1) ∧
        (ps = [] → a' = a) ∧
        (ps ≠ [] → a'.averageWatchPercentage =
          ((a'.completionData.map CompletionDataPoint.watchPercentage).sum) /
            ((a'.completionData.length : ℕ) : ℚ)) := by
  induction ps with
  | nil =>
    intro s a ha _
    exact ⟨a, ha, by simp, fun _ => rfl, fun h => absurd rfl h⟩
  | cons q rest ih =>
    intro s a ha hok
    have hRC := @recordCompletion_some videoId q.1 q.2.1 q.2.2 s a ha
    by_cases hc : storeSize { s with analytics := alistSet videoId (appendCompletion a q.1 q.2.1 q.2.2) s.analytics } ≤ s.cap
    · have hstep : recordCompletion videoId q.1 q.2.1 q.2.2 s =
          (Except.ok (), { s with analytics := alistSet videoId (appendCompletion a q.1 q.2.1 q.2.2) s.analytics }) := by
        rw [hRC]; simp [setAnalyticsMap, hc]
      have hrw : runCompletions videoId (q :: rest) s =
          runCompletions videoId rest { s with analytics := alistSet videoId (appendCompletion a q.1 q.2.1 q.2.2) s.analytics } := by
        simp only [runCompletions, hstep]
      rw [hrw] at hok ⊢
      obtain ⟨a', h1, h2, h3, h4⟩ :=
        ih _ _ (alistGet_set_self videoId _ s.analytics) hok
      refine ⟨a', h1, ?_, fun h => absurd h (by simp), ?_⟩
      · rw [h2]
        simp [appendCompletion, List.append_assoc]
      · intro _
        by_cases hrest : rest = []
        · subst hrest
          rw [h3 rfl]
          simp [appendCompletion]
        · exact h4 hrest
    · have hstep : recordCompletion videoId q.1 q.2.1 q.2.2 s =
          (Except.error StorageErr.quotaExceeded, s) := by
        rw [hRC]; simp [setAnalyticsMap, hc]
      simp only [runCompletions, hstep] at hok
      exact absurd hok (by simp)

/-- Claim C6 (average correctness without clamping): a successful
`recordCompletion` appends the point exactly as passed (no clamping or
range checks) and recomputes the average as the arithmetic mean over all
stored points; an all-successful sequence starting from empty data ends
with average = mean of the passed percentages. -/
theorem recordCompletion_exact (videoId : String) (p d : ℚ) (now : ℤ)
    (s : Store) (a : VideoAnalytics) (ha : getAnalytics videoId s = some a) :
    (∀ s', recordCompletion videoId p d now s = (Except.ok (), s') →
       getAnalytics videoId s' = some
         { a with
           completionData :=
             a.completionData ++ [CompletionDataPoint.mk now p d],
           averageWatchPercentage :=
             ((a.completionData ++ [CompletionDataPoint.mk now p d]).map
                 CompletionDataPoint.watchPercentage).sum /
               (((a.completionData ++
                   [CompletionDataPoint.mk now p d]).length : ℕ) : ℚ) }) ∧
    (∀ ps : List (ℚ × ℚ × ℤ), a.completionData = [] → ps ≠ [] →
       (runCompletions videoId ps s).1 = true →
       ∃ a', getAnalytics videoId (runCompletions videoId ps s).2 = some a' ∧
         a'.completionData.map CompletionDataPoint.watchPercentage =
           ps.map (fun q => q.1) ∧
         a'.averageWatchPercentage =
           (ps.map (fun q => q.1)).sum / ((ps.length : ℕ) : ℚ)) := by
  have ha' : alistGet videoId s.analytics = some a := ha
  constructor
  · intro s' hs'
    rw [recordCompletion_some ha'] at hs'
    rw [setAnalyticsMap_ok_inv hs']
    show alistGet videoId
        (alistSet videoId (appendCompletion a p d now) s.analytics) = _
    rw [alistGet_set_self]
    rfl
  · intro ps hempty hne hok
    obtain ⟨a', h1, h2, _, h4⟩ := runCompletions_spec videoId ps s a ha' hok
    have hdata : a'.completionData =
        ps.map (fun q => CompletionDataPoint.mk q.2.2 q.1 q.2.1) := by
      rw [h2, hempty]; simp
    have hmap : a'.completionData.map CompletionDataPoint.watchPercentage =
        ps.map (fun q => q.1) := by
      rw [hdata, List.map_map]
      rfl
    have hlen : a'.completionData.length = ps.length := by
      rw [hdata, List.length_map]
    refine ⟨a', h1, hmap, ?_⟩
    rw [h4 hne, hmap, hlen]

/-- Witness for C6: one out-of-range completion (percentage 150, negative
duration) on the demo store's empty record gives average 150, stored
unclamped. -/
theorem recordCompletion_exact_witness :
    getAnalytics "a" (recordCompletion "a" 150 (-5) 9 demoStore).2 =
      some { videoId := "a", views := 0,
             completionData := [CompletionDataPoint.mk 9 150 (-5)],
             averageWatchPercentage := 150, lastViewed := none } := by
  have h := (recordCompletion_exact "a" 150 (-5) 9 demoStore (zeroAnalytics "a")
    (by decide)).1 (recordCompletion "a" 150 (-5) 9 demoStore).2 (by rfl)
  rw [h]
  simp [zeroAnalytics]

theorem incrementView_shape (videoId : String) (now : ℤ) (s : Store) :
    (incrementView videoId now s).2 = s ∨
    ∃ a1, (incrementView videoId now s).2 = { s with analytics := alistSet videoId a1 s.analytics } := by
  cases hget : alistGet videoId s.analytics with
  | none => exact Or.inl (by simp [incrementView, hget])
  | some a =>
    rw [incrementView_some hget]
    by_cases hc : storeSize { s with analytics := alistSet videoId (bumpView a now) s.analytics } ≤ s.cap
    · exact Or.inr ⟨bumpView a now, by simp [setAnalyticsMap, hc]⟩
    · exact Or.inl (by simp [setAnalyticsMap, hc])

theorem recordCompletion_shape (videoId : String) (p d : ℚ) (now : ℤ)
    (s : Store) :
    (recordCompletion videoId p d now s).2 = s ∨
    ∃ a1, (recordCompletion videoId p d now s).2 = { s with analytics := alistSet videoId a1 s.analytics } := by
  cases hget : alistGet videoId s.analytics with
  | none => exact Or.inl (by simp [recordCompletion, hget])
  | some a =>
    rw [recordCompletion_some hget]
    by_cases hc : storeSize { s with analytics := alistSet videoId (appendCompletion a p d now) s.analytics } ≤ s.cap
    · exact Or.inr ⟨appendCompletion a p d now, by simp [setAnalyticsMap, hc]⟩
    · exact Or.inl (by simp [setAnalyticsMap, hc])

theorem deleteVideo_shape (id : String) (s : Store) :
    (deleteVideo id s).2 = s ∨
    (deleteVideo id s).2 = { s with videos := s.videos.filter (fun v => v.id != id), blobs := alistRemove id s.blobs } ∨
    (deleteVideo id s).2 = { s with videos := s.videos.filter (fun v => v.id != id), blobs := alistRemove id s.blobs, analytics := alistRemove id s.analytics } := by
  by_cases h1 : storeSize { s with videos := s.videos.filter (fun v => v.id != id) } ≤ s.cap
  · have hstep : deleteVideo id s =
        deleteAnalytics id (removeBlobItem id { s with videos := s.videos.filter (fun v => v.id != id) }) := by
      simp only [deleteVideo, setVideos_pos h1]
    rw [hstep]
    by_cases h2 : storeSize { s with videos := s.videos.filter (fun v => v.id != id), blobs := alistRemove id s.blobs, analytics := alistRemove id s.analytics } ≤ s.cap
    · exact Or.inr (Or.inr (by simp [deleteAnalytics, setAnalyticsMap, removeBlobItem, h2]))
    · exact Or.inr (Or.inl (by simp [deleteAnalytics, setAnalyticsMap, removeBlobItem, h2]))
  · have : setVideos (s.videos.filter (fun v => v.id != id)) s =
        (Except.error StorageErr.quotaExceeded, s) := by
      simp [setVideos, h1]
    exact Or.inl (by simp [deleteVideo, this])

/-- Claim C10 (per-id isolation): `recordView`, `recordCompletion` and
`deleteVideo` on `id1` leave every stored entry of a distinct `id2`
unchanged; the two analytics mutations never touch the video list or the
blobs, and on success they change only the intended fields of `id1`'s
record (`views`/`lastViewed` for a view, `completionData`/
`averageWatchPercentage` for a completion). -/
theorem per_id_isolation (id1 id2 : String) (h12 : id2 ≠ id1) (now : ℤ)
    (p d : ℚ) (s : Store) :
    (getVideo id2 (incrementView id1 now s).2 = getVideo id2 s ∧
     getVideoBlob id2 (incrementView id1 now s).2 = getVideoBlob id2 s ∧
     getAnalytics id2 (incrementView id1 now s).2 = getAnalytics id2 s) ∧
    (getVideo id2 (recordCompletion id1 p d now s).2 = getVideo id2 s ∧
     getVideoBlob id2 (recordCompletion id1 p d now s).2 = getVideoBlob id2 s ∧
     getAnalytics id2 (recordCompletion id1 p d now s).2 = getAnalytics id2 s) ∧
    (getVideo id2 (deleteVideo id1 s).2 = getVideo id2 s ∧
     getVideoBlob id2 (deleteVideo id1 s).2 = getVideoBlob id2 s ∧
     getAnalytics id2 (deleteVideo id1 s).2 = getAnalytics id2 s) ∧
    ((incrementView id1 now s).2.videos = s.videos ∧
     (incrementView id1 now s).2.blobs = s.blobs ∧
     ∀ a s', getAnalytics id1 s = some a →
       incrementView id1 now s = (Except.ok (), s') →
       getAnalytics id1 s' = some (bumpView a now)) ∧
    ((recordCompletion id1 p d now s).2.videos = s.videos ∧
     (recordCompletion id1 p d now s).2.blobs = s.blobs ∧
     ∀ a s', getAnalytics id1 s = some a →
       recordCompletion id1 p d now s = (Except.ok (), s') →
       getAnalytics id1 s' = some (appendCompletion a p d now)) := by
  refine ⟨?_, ?_, ?_, ?_, ?_⟩
  · rcases incrementView_shape id1 now s with h | ⟨a1, h⟩ <;> rw [h]
    · exact ⟨rfl, rfl, rfl⟩
    · exact ⟨rfl, rfl, alistGet_set_ne h12 a1 s.analytics⟩
  · rcases recordCompletion_shape id1 p d now s with h | ⟨a1, h⟩ <;> rw [h]
    · exact ⟨rfl, rfl, rfl⟩
    · exact ⟨rfl, rfl, alistGet_set_ne h12 a1 s.analytics⟩
  · rcases deleteVideo_shape id1 s with h | h | h <;> rw [h]
    · exact ⟨rfl, rfl, rfl⟩
    · exact ⟨find?_filter_other h12 s.videos, alistGet_remove_ne h12 s.blobs, rfl⟩
    · exact ⟨find?_filter_other h12 s.videos, alistGet_remove_ne h12 s.blobs,
        alistGet_remove_ne h12 s.analytics⟩
  · refine ⟨?_, ?_, ?_⟩
    · rcases incrementView_shape id1 now s with h | ⟨a1, h⟩ <;> rw [h]
    · rcases incrementView_shape id1 now s with h | ⟨a1, h⟩ <;> rw [h]
    · intro a s' ha heq
      rw [incrementView_some ha] at heq
      rw [setAnalyticsMap_ok_inv heq]
      exact alistGet_set_self _ _ _
  · refine ⟨?_, ?_, ?_⟩
    · rcases recordCompletion_shape id1 p d now s with h | ⟨a1, h⟩ <;> rw [h]
    · rcases recordCompletion_shape id1 p d now s with h | ⟨a1, h⟩ <;> rw [h]
    · intro a s' ha heq
      rw [recordCompletion_some ha] at heq
      rw [setAnalyticsMap_ok_inv heq]
      exact alistGet_set_self _ _ _

/-- Witness for C10: mutations on "a" leave "b"'s entries in the
two-record store unchanged. -/
theorem per_id_isolation_witness :
    getVideo "b" (deleteVideo "a" demoStore2).2 = getVideo "b" demoStore2 ∧
    getAnalytics "b" (incrementView "a" 5 demoStore2).2 =
      getAnalytics "b" demoStore2 ∧
    getVideoBlob "b" (recordCompletion "a" 150 (-5) 7 demoStore2).2 =
      getVideoBlob "b" demoStore2 :=
  ⟨(per_id_isolation "a" "b" (by decide) 5 150 (-5) demoStore2).2.2.1.1,
   (per_id_isolation "a" "b" (by decide) 5 150 (-5) demoStore2).1.2.2,
   (per_id_isolation "a" "b" (by decide) 7 150 (-5) demoStore2).2.1.2.1⟩

theorem find?_append_self {vd : VideoMetadata} {l : List VideoMetadata}
    (hl : ∀ x ∈ l, x.id = vd.id → x = vd) :
    (l ++ [vd]).find? (fun v => v.id == vd.id) = some vd := by
  induction l with
  | nil => simp
  | cons hd tl ih =>
    by_cases h : hd.id = vd.id
    · have he : hd = vd := hl hd (by simp) h
      subst he
      simp [List.find?_cons]
    · have hf : (hd.id == vd.id) = false := by
        simp only [beq_eq_false_iff_ne, ne_eq]; exact h
      simp only [List.cons_append, List.find?_cons, hf]
      exact ih (fun x hx e => hl x (by simp [hx]) e)

theorem deleteEvicted_videos_eq (vs : List VideoMetadata) :
    ∀ s : Store, ((deleteEvicted vs s).2).videos = s.videos := by
  induction vs with
  | nil => intro _; rfl
  | cons v vs ih =>
    intro s
    rcases hDA : deleteAnalytics v.id (removeBlobItem v.id s) with ⟨res, t⟩
    have hv : t.videos = s.videos := by
      cases res with
      | ok u => rw [setAnalyticsMap_ok_inv (hDA : setAnalyticsMap _ _ = _)]; rfl
      | error e =>
        rw [(setAnalyticsMap_err_inv (hDA : setAnalyticsMap _ _ = _)).2]; rfl
    cases res with
    | ok u =>
      have : deleteEvicted (v :: vs) s = deleteEvicted vs t := by
        simp only [deleteEvicted, hDA]
      rw [this, ih t, hv]
    | error e =>
      have : deleteEvicted (v :: vs) s = (Except.error e, t) := by
        simp only [deleteEvicted, hDA]
      rw [this]
      exact hv

theorem cleanup_videos_mem {k : ℕ} {s s' : Store} {res : Except StorageErr Unit}
    (h : cleanupOldVideos k s = (res, s')) :
    ∀ v ∈ s'.videos, v ∈ s.videos := by
  by_cases hlen : s.videos.length ≤ k
  · simp only [cleanupOldVideos, hlen, if_true] at h
    injection h with h1 h2
    subst h2
    exact fun v hv => hv
  · simp only [cleanupOldVideos, hlen, if_false] at h
    rcases hDE : deleteEvicted ((sortByCreatedAtDesc s.videos).drop k) s with
      ⟨resD, t⟩
    have ht : t.videos = s.videos := by
      have := deleteEvicted_videos_eq ((sortByCreatedAtDesc s.videos).drop k) s
      rw [hDE] at this
      exact this
    rw [hDE] at h
    cases resD with
    | error e =>
      have h2 : ((Except.error e : Except StorageErr Unit), t) = (res, s') := h
      injection h2 with h3 h4
      subst h4
      rw [ht]
      exact fun v hv => hv
    | ok u =>
      have h2 : setVideos ((sortByCreatedAtDesc s.videos).take k) t = (res, s') := h
      rcases hSV : setVideos ((sortByCreatedAtDesc s.videos).take k) t with
        ⟨resV, t2⟩
      rw [hSV] at h2
      injection h2 with h3 h4
      subst h4
      cases resV with
      | ok u2 =>
        rw [setVideos_ok_inv hSV]
        intro v hv
        exact mem_sortByCreatedAtDesc.mp (List.mem_of_mem_take hv)
      | error e2 =>
        rw [(setVideos_err_inv hSV).2.1, ht]
        exact fun v hv => hv

/-- Claim C3 (round-trip): a successful `createVideo` with a fresh id
makes the returned record retrievable by `getVideo` and the stored
text-encoded payload retrievable by `getBlob`. -/
theorem upload_roundtrip {id b : String} {md : MetaInput} {s s' : Store}
    {r : VideoMetadata}
    (hfresh : ∀ v ∈ s.videos, v.id ≠ id)
    (h : uploadVideo id b md s = (Except.ok r, s')) :
    getVideo r.id s' = some r ∧ getVideoBlob r.id s' = some b := by
  obtain ⟨hr, hcase⟩ := uploadVideo_ok h
  subst hr
  rcases hcase with ⟨u, hA⟩ | ⟨s1, s2, u2, u3, hA, hC, hB⟩
  · rw [attemptWrite_ok hA]
    constructor
    · exact find?_append_self (fun x hx e => absurd e (hfresh x hx))
    · exact alistGet_set_self _ _ _
  · have hmem1 := (attemptWrite_err hA).2.2
    have hmem2 := cleanup_videos_mem hC
    rw [attemptWrite_ok hB]
    constructor
    · refine find?_append_self (fun x hx e => ?_)
      rcases hmem1 x (hmem2 x hx) with hxs | hxv
      · exact absurd e (hfresh x hxs)
      · exact hxv
    · exact alistGet_set_self _ _ _

/-- Witness for C3: upload of a fresh id into the demo store. -/
theorem upload_roundtrip_witness :
    getVideo (mkVideoData "b" (mdAt 2)).id
        (uploadVideo "b" blob10 (mdAt 2) demoStore).2 =
      some (mkVideoData "b" (mdAt 2)) ∧
    getVideoBlob (mkVideoData "b" (mdAt 2)).id
        (uploadVideo "b" blob10 (mdAt 2) demoStore).2 = some blob10 :=
  @upload_roundtrip "b" blob10 (mdAt 2) demoStore
    (uploadVideo "b" blob10 (mdAt 2) demoStore).2 (mkVideoData "b" (mdAt 2))
    (by decide) (by rfl)

theorem deleteEvicted_err_quota {vs : List VideoMetadata} :
    ∀ {s s' : Store} {e : StorageErr},
      deleteEvicted vs s = (Except.error e, s') →
      e = StorageErr.quotaExceeded := by
  induction vs with
  | nil => intro s s' e h; exact absurd h (by simp [deleteEvicted])
  | cons v vs ih =>
    intro s s' e h
    rcases hDA : deleteAnalytics v.id (removeBlobItem v.id s) with ⟨res, t⟩
    rw [show deleteEvicted (v :: vs) s =
        (match deleteAnalytics v.id (removeBlobItem v.id s) with
         | (Except.error e, s1) => (Except.error e, s1)
         | (Except.ok _, s1) => deleteEvicted vs s1) from rfl, hDA] at h
    cases res with
    | error e1 =>
      have h2 : ((Except.error e1 : Except StorageErr Unit), t) =
          ((Except.error e : Except StorageErr Unit), s') := h
      injection h2 with h3 h4
      injection h3 with h5
      subst h5
      exact (setAnalyticsMap_err_inv (hDA : setAnalyticsMap _ _ = _)).1
    | ok u =>
      exact ih (h : deleteEvicted vs t = _)

theorem cleanupOldVideos_err_quota {k : ℕ} {s s' : Store} {e : StorageErr}
    (h : cleanupOldVideos k s = (Except.error e, s')) :
    e = StorageErr.quotaExceeded := by
  by_cases hlen : s.videos.length ≤ k
  · simp [cleanupOldVideos, hlen] at h
  · simp only [cleanupOldVideos, hlen, if_false] at h
    rcases hDE : deleteEvicted ((sortByCreatedAtDesc s.videos).drop k) s with
      ⟨resD, t⟩
    rw [hDE] at h
    cases resD with
    | error e1 =>
      have h2 : ((Except.error e1 : Except StorageErr Unit), t) =
          ((Except.error e : Except StorageErr Unit), s') := h
      injection h2 with h3 h4
      injection h3 with h5
      subst h5
      exact deleteEvicted_err_quota hDE
    | ok u =>
      have h2 : setVideos ((sortByCreatedAtDesc s.videos).take k) t =
          (Except.error e, s') := h
      exact (setVideos_err_inv h2).1

theorem deleteVideo_no_capacity_err (id : String) (s : Store) :
    (deleteVideo id s).1 ≠ Except.error StorageErr.capacityExceeded := by
  by_cases h1 : storeSize { s with videos := s.videos.filter (fun v => v.id != id) } ≤ s.cap
  · have hstep : deleteVideo id s =
        deleteAnalytics id (removeBlobItem id { s with videos := s.videos.filter (fun v => v.id != id) }) := by
      simp only [deleteVideo, setVideos_pos h1]
    rw [hstep]
    rcases hDA : deleteAnalytics id (removeBlobItem id { s with videos := s.videos.filter (fun v => v.id != id) }) with ⟨res, t⟩
    cases res with
    | ok u => simp
    | error e =>
      have := (setAnalyticsMap_err_inv (hDA : setAnalyticsMap _ _ = _)).1
      subst this
      simp
  · have : setVideos (s.videos.filter (fun v => v.id != id)) s =
        (Except.error StorageErr.quotaExceeded, s) := by
      simp [setVideos, h1]
    simp [deleteVideo, this]

theorem incrementView_no_capacity_err (videoId : String) (now : ℤ) (s : Store) :
    (incrementView videoId now s).1 ≠ Except.error StorageErr.capacityExceeded := by
  cases hget : alistGet videoId s.analytics with
  | none => simp [incrementView, hget]
  | some a =>
    rw [incrementView_some hget]
    by_cases hc : storeSize { s with analytics := alistSet videoId (bumpView a now) s.analytics } ≤ s.cap <;>
      simp [setAnalyticsMap, hc]

theorem recordCompletion_no_capacity_err (videoId : String) (p d : ℚ)
    (now : ℤ) (s : Store) :
    (recordCompletion videoId p d now s).1 ≠
      Except.error StorageErr.capacityExceeded := by
  cases hget : alistGet videoId s.analytics with
  | none => simp [recordCompletion, hget]
  | some a =>
    rw [recordCompletion_some hget]
    by_cases hc : storeSize { s with analytics := alistSet videoId (appendCompletion a p d now) s.analytics } ≤ s.cap <;>
      simp [setAnalyticsMap, hc]

/-- Claim C8 (CapacityExceeded provenance): `uploadVideo` reports
`capacityExceeded` exactly when its first attempt failed with a quota
error, the eviction pass completed, and the single retry failed again —
one cleanup-then-retry, nothing more; and no other store operation ever
reports `capacityExceeded`. -/
theorem capacity_error_provenance :
    (∀ (id b : String) (md : MetaInput) (s : Store),
       (uploadVideo id b md s).1 = Except.error StorageErr.capacityExceeded ↔
       ∃ s1 s2 u2,
         attemptWrite (mkVideoData id md) b s =
           (Except.error StorageErr.quotaExceeded, s1) ∧
         cleanupOldVideos 3 s1 = (Except.ok u2, s2) ∧
         (attemptWrite (mkVideoData id md) b s2).1 =
           Except.error StorageErr.quotaExceeded) ∧
    (∀ id s, (deleteVideo id s).1 ≠ Except.error StorageErr.capacityExceeded) ∧
    (∀ id now s,
       (incrementView id now s).1 ≠ Except.error StorageErr.capacityExceeded) ∧
    (∀ id p d now s,
       (recordCompletion id p d now s).1 ≠
         Except.error StorageErr.capacityExceeded) ∧
    (∀ k s,
       (cleanupOldVideos k s).1 ≠ Except.error StorageErr.capacityExceeded) := by
  refine ⟨?_, deleteVideo_no_capacity_err, incrementView_no_capacity_err,
    recordCompletion_no_capacity_err, ?_⟩
  · intro id b md s
    rcases hA : attemptWrite (mkVideoData id md) b s with ⟨resA, s1⟩
    cases resA with
    | ok u =>
      have hval : uploadVideo id b md s = (Except.ok (mkVideoData id md), s1) := by
        simp only [uploadVideo, hA]
      rw [hval]
      constructor
      · intro hcontra; simp at hcontra
      · rintro ⟨s1', s2', u2', hA', _⟩
        exact absurd hA' (by simp)
    | error e =>
      have he := (attemptWrite_err hA).1
      subst he
      rcases hC : cleanupOldVideos 3 s1 with ⟨resC, s2⟩
      cases resC with
      | error e2 =>
        have he2 := cleanupOldVideos_err_quota hC
        subst he2
        have hval : uploadVideo id b md s =
            (Except.error StorageErr.quotaExceeded, s2) := by
          simp only [uploadVideo, hA, hC]
        rw [hval]
        constructor
        · intro hcontra; simp at hcontra
        · rintro ⟨s1', s2', u2', hA', hC', _⟩
          injection hA' with h3 h4
          subst h4
          exact absurd (hC.symm.trans hC') (by simp)
      | ok u2 =>
        rcases hB : attemptWrite (mkVideoData id md) b s2 with ⟨resB, s3⟩
        cases resB with
        | ok u3 =>
          have hval : uploadVideo id b md s =
              (Except.ok (mkVideoData id md), s3) := by
            simp only [uploadVideo, hA, hC, hB]
          rw [hval]
          constructor
          · intro hcontra; simp at hcontra
          · rintro ⟨s1', s2', u2', hA', hC', hB'⟩
            injection hA' with h3 h4
            subst h4
            have h56 := hC.symm.trans hC'
            injection h56 with h5 h6
            subst h6
            rw [hB] at hB'
            exact absurd hB' (by simp)
        | error e3 =>
          have he3 := (attemptWrite_err hB).1
          subst he3
          have hval : uploadVideo id b md s =
              (Except.error StorageErr.capacityExceeded, s3) := by
            simp only [uploadVideo, hA, hC, hB]
          rw [hval]
          constructor
          · intro _
            exact ⟨s1, s2, u2, rfl, hC, by rw [hB]⟩
          · intro _; rfl
  · intro k s
    rcases hC : cleanupOldVideos k s with ⟨resC, s2⟩
    cases resC with
    | ok u => simp
    | error e =>
      have := cleanupOldVideos_err_quota hC
      subst this
      simp

/-- Witness for C8: the tiny store drives `uploadVideo` into the
`capacityExceeded` outcome, matching the iff's right side. -/
theorem capacity_error_provenance_witness :
    (uploadVideo "a" blob10 (mdAt 1) tinyStore).1 =
      Except.error StorageErr.capacityExceeded :=
  (capacity_error_provenance.1 "a" blob10 (mdAt 1) tinyStore).mpr
    ⟨_, _, (), by rfl, by rfl, by rfl⟩

/-- Counterexample to claim C1 as stated: on an empty store of capacity
40, `uploadVideo` fails with `capacityExceeded` (the blob write of both
attempts exceeds quota), yet the video list observable via `listVideos`
HAS changed — the metadata committed by the first attempt's list write
survives as an orphan with no blob and no analytics. -/
theorem upload_capacity_partial_write_counterexample :
    (uploadVideo "a" blob10 (mdAt 1) tinyStore).1 =
      Except.error StorageErr.capacityExceeded ∧
    getVideos (uploadVideo "a" blob10 (mdAt 1) tinyStore).2 ≠
      getVideos tinyStore ∧
    getVideos (uploadVideo "a" blob10 (mdAt 1) tinyStore).2 =
      [mkVideoData "a" (mdAt 1)] ∧
    getVideoBlob "a" (uploadVideo "a" blob10 (mdAt 1) tinyStore).2 = none ∧
    getAnalytics "a" (uploadVideo "a" blob10 (mdAt 1) tinyStore).2 = none := by
  decide

/-- Claim C1 amended: partial writes are prevented only when both the
initial attempt and the retry fail at their very first write (the video
list `setItem`).  In that case `uploadVideo` fails with
`capacityExceeded`, the final state is exactly the eviction result (so
`listVideos` still reflects the eviction, not the pre-call list), and no
trace of the new id is persisted: no metadata, no blob, no analytics. -/
theorem upload_capacity_no_trace_when_list_writes_fail
    (s : Store) (id b : String) (md : MetaInput)
    (hwf : storeSize s ≤ s.cap)
    (hfv : ∀ v ∈ s.videos, v.id ≠ id)
    (hfb : getVideoBlob id s = none)
    (hfa : getAnalytics id s = none)
    (h1 : s.cap < storeSize { s with videos := s.videos ++ [mkVideoData id md] })
    (h2 : s.cap < storeSize { (cleanupOldVideos 3 s).2 with videos := (cleanupOldVideos 3 s).2.videos ++ [mkVideoData id md] }) :
    (uploadVideo id b md s).1 = Except.error StorageErr.capacityExceeded ∧
    (uploadVideo id b md s).2 = (cleanupOldVideos 3 s).2 ∧
    getVideo id (uploadVideo id b md s).2 = none ∧
    getVideoBlob id (uploadVideo id b md s).2 = none ∧
    getAnalytics id (uploadVideo id b md s).2 = none := by
  obtain ⟨s2, hC, hcap, hsize, _, _, hpb, hpa, hmem⟩ :=
    cleanupOldVideos_spec 3 s hwf
  have hC2 : (cleanupOldVideos 3 s).2 = s2 := by rw [hC]
  rw [hC2] at h2
  have hc1 : ¬ storeSize { s with videos := s.videos ++ [mkVideoData id md] } ≤ s.cap :=
    not_le.mpr h1
  have hA1 : setVideos (s.videos ++ [mkVideoData id md]) s =
      (Except.error StorageErr.quotaExceeded, s) := by
    simp [setVideos, hc1]
  have hA : attemptWrite (mkVideoData id md) b s =
      (Except.error StorageErr.quotaExceeded, s) := by
    simp only [attemptWrite, hA1]
  have hc2 : ¬ storeSize { s2 with videos := s2.videos ++ [mkVideoData id md] } ≤ s2.cap := by
    rw [hcap]
    exact not_le.mpr h2
  have hB1 : setVideos (s2.videos ++ [mkVideoData id md]) s2 =
      (Except.error StorageErr.quotaExceeded, s2) := by
    simp [setVideos, hc2]
  have hB : attemptWrite (mkVideoData id md) b s2 =
      (Except.error StorageErr.quotaExceeded, s2) := by
    simp only [attemptWrite, hB1]
  have hrun : uploadVideo id b md s =
      (Except.error StorageErr.capacityExceeded, s2) := by
    simp only [uploadVideo, hA, hC, hB]
  rw [hrun, hC2]
  refine ⟨rfl, rfl, ?_, ?_, ?_⟩
  · refine List.find?_eq_none.mpr (fun x hx => ?_)
    have hxs : x ∈ s.videos := hmem x hx
    simpa using hfv x hxs
  · exact hpb id hfb
  · exact hpa id hfa

/-- Witness for the amended C1 at a store whose capacity rejects even a
one-record list write. -/
theorem upload_capacity_no_trace_witness :
    (uploadVideo "a" blob10 (mdAt 1) store10).1 =
      Except.error StorageErr.capacityExceeded ∧
    (uploadVideo "a" blob10 (mdAt 1) store10).2 = (cleanupOldVideos 3 store10).2 ∧
    getVideo "a" (uploadVideo "a" blob10 (mdAt 1) store10).2 = none ∧
    getVideoBlob "a" (uploadVideo "a" blob10 (mdAt 1) store10).2 = none ∧
    getAnalytics "a" (uploadVideo "a" blob10 (mdAt 1) store10).2 = none :=
  upload_capacity_no_trace_when_list_writes_fail store10 "a" blob10 (mdAt 1)
    (by decide) (by decide) (by decide) (by decide) (by decide) (by decide)

/-- Counterexample to claim C2 as stated: five sequential uploads under
capacity pressure (capacity 300 holds four full records; the fifth call's
first attempt fails with a quota error, so eviction runs) end with FOUR
records stored and only ONE (the oldest, "a") removed — not "exactly the
2 oldest removed and the 3 newest remaining". -/
theorem eviction_five_uploads_counterexample :
    (uploadVideo "a" blob10 (mdAt 1) c2Store).1 =
      Except.ok (mkVideoData "a" (mdAt 1)) ∧
    (uploadVideo "b" blob10 (mdAt 2) c2s1).1 =
      Except.ok (mkVideoData "b" (mdAt 2)) ∧
    (uploadVideo "c" blob10 (mdAt 3) c2s2).1 =
      Except.ok (mkVideoData "c" (mdAt 3)) ∧
    (uploadVideo "d" blob10 (mdAt 4) c2s3).1 =
      Except.ok (mkVideoData "d" (mdAt 4)) ∧
    (attemptWrite (mkVideoData "e" (mdAt 5)) blob10 c2s4).1 =
      Except.error StorageErr.quotaExceeded ∧
    (uploadVideo "e" blob10 (mdAt 5) c2s4).1 =
      Except.ok (mkVideoData "e" (mdAt 5)) ∧
    (getVideos c2s5).length = 4 ∧
    getVideo "a" c2s5 = none ∧
    getVideoBlob "a" c2s5 = none ∧
    getAnalytics "a" c2s5 = none ∧
    (getVideo "b" c2s5).isSome = true ∧
    (getVideoBlob "b" c2s5).isSome = true ∧
    (getAnalytics "b" c2s5).isSome = true ∧
    (getVideo "c" c2s5).isSome = true ∧
    (getVideoBlob "c" c2s5).isSome = true ∧
    (getAnalytics "c" c2s5).isSome = true ∧
    (getVideo "d" c2s5).isSome = true ∧
    (getVideoBlob "d" c2s5).isSome = true ∧
    (getAnalytics "d" c2s5).isSome = true ∧
    (getVideo "e" c2s5).isSome = true ∧
    (getVideoBlob "e" c2s5).isSome = true ∧
    (getAnalytics "e" c2s5).isSome = true := by
  decide

/-- Claim C2 amended: an eviction pass keeps exactly the first `K`
records of the createdAt-descending sort of the records stored at
cleanup time (counted before the new record only when the failed write
was the metadata list write), deleting blob and analytics of everything
past that prefix; in the five-upload scenario where only the fifth call
is capacity-pressured, exactly the 1 oldest record is removed in all
three representations and the 4 others remain fully retrievable. -/
theorem eviction_keeps_k_newest (k : ℕ) (s : Store)
    (hwf : storeSize s ≤ s.cap) (hk : k < s.videos.length) :
    (∃ s', cleanupOldVideos k s = (Except.ok (), s') ∧
      s'.videos = (sortByCreatedAtDesc s.videos).take k ∧
      ∀ v ∈ (sortByCreatedAtDesc s.videos).drop k,
        getVideoBlob v.id s' = none ∧ getAnalytics v.id s' = none) ∧
    ((getVideos c2s5).length = 4 ∧
     getVideo "a" c2s5 = none ∧
     getVideoBlob "a" c2s5 = none ∧
     getAnalytics "a" c2s5 = none ∧
     (getVideo "b" c2s5).isSome = true ∧
     (getVideo "c" c2s5).isSome = true ∧
     (getVideo "d" c2s5).isSome = true ∧
     (getVideo "e" c2s5).isSome = true) := by
  constructor
  · obtain ⟨s', hC, _, _, _, hgt, _, _, _⟩ := cleanupOldVideos_spec k s hwf
    obtain ⟨hv, hdel⟩ := hgt hk
    exact ⟨s', hC, hv, hdel⟩
  · refine ⟨?_, ?_, ?_, ?_, ?_, ?_, ?_, ?_⟩ <;> decide

/-- Witness for the amended C2 at the pre-eviction state of the
five-upload scenario. -/
theorem eviction_keeps_k_newest_witness :
    (∃ s', cleanupOldVideos 3 c2s4 = (Except.ok (), s') ∧
      s'.videos = (sortByCreatedAtDesc c2s4.videos).take 3 ∧
      ∀ v ∈ (sortByCreatedAtDesc c2s4.videos).drop 3,
        getVideoBlob v.id s' = none ∧ getAnalytics v.id s' = none) ∧
    ((getVideos c2s5).length = 4 ∧
     getVideo "a" c2s5 = none ∧
     getVideoBlob "a" c2s5 = none ∧
     getAnalytics "a" c2s5 = none ∧
     (getVideo "b" c2s5).isSome = true ∧
     (getVideo "c" c2s5).isSome = true ∧
     (getVideo "d" c2s5).isSome = true ∧
     (getVideo "e" c2s5).isSome = true) :=
  eviction_keeps_k_newest 3 c2s4 (by decide) (by decide)

end ScreenRec
